import Mathlib

/-
Verification of the underdarkgo server (reymond-group/underdarkgo).

The development shallowly embeds the Go source of the server.  Go byte
strings that the code analyses character by character (record lines,
search terms, entity ids, index-file contents) are modelled as
`List Char`; opaque strings that are only carried along (command names,
the raw request argument echoed in the `Index` field) stay `String`.
Machine integers of the source (`int`, `uint32`, `uint64`) are modelled
as `Nat` (and `Int` where the Go value can be negative); none of the
modelled computations can overflow their Go types on the inputs the
theorems quantify over.  Go code that can panic (slice indexing out of
range, integer division by zero) is modelled with `Option`, `none`
standing for the fault.  Random-access reads of a record line `i` via
the `infoOffsets`/`infoLengths` tables are modelled by a total function
`infos : Nat → List Char` giving the content of line `i` with its
trailing newline already stripped (the Go code reads `length[i]` bytes
at `offset[i]` and drops the final byte).
-/

namespace Underdark

/-- Model of Go `strings.Split(s, sep)` for a one-character separator:
splits at every occurrence, keeping empty pieces; the result is never
empty. -/
def splitOnChar (sep : Char) : List Char → List (List Char)
  | [] => [[]]
  | c :: rest =>
    let r := splitOnChar sep rest
    if c = sep then [] :: r
    else (c :: r.headD []) :: r.tail

/-- The fields of record line `m`: the Go handlers split the fetched
line on single spaces (`strings.Split(info, " ")`). -/
def fetchInfos (infos : Nat → List Char) (m : Nat) : List (List Char) :=
  splitOnChar ' ' (infos m)

/-- The `Stats` struct.  `avgBinSize` holds the integer quotient
`nCompounds / nBins` that the Go code computes before converting it to
`float32`; the conversion itself is value-preserving for quotients below
`2^24` and is outside the model. -/
structure Stats where
  compoundCount : Nat
  binCount : Nat
  avgBinSize : Nat
  binHist : List Nat
  histMin : Nat
  histMax : Nat
deriving DecidableEq

/-- Model of `calcStats`.  `bins` is `variantIndices[variantId]`: the
list of bins of the variant, each bin a list of compound ordinals.  The
single accumulation loop of the source (compound total, max, min with
the `9999` start value) is rendered as folds; the histogram loop
increments the bucket at each bin's population.  `nCompounds / nBins`
is Go integer division: it panics when the variant has no bins, hence
the `Option`. -/
def calcStats (bins : List (List Nat)) : Option Stats :=
  let nBins := bins.length
  let nCompounds := (bins.map List.length).sum
  let mx := (bins.map List.length).foldl Nat.max 0
  let mn := (bins.map List.length).foldl Nat.min 9999
  let hist := bins.foldl (fun h b => h.set b.length ((h.getD b.length 0) + 1))
    (List.replicate (mx + 1) 0)
  if nBins = 0 then none
  else some { compoundCount := nCompounds, binCount := nBins,
              avgBinSize := nCompounds / nBins, binHist := hist,
              histMin := mn, histMax := mx }

/-- The `BinResponseMessage` struct, fields in source order. -/
structure BinResponseMessage where
  command : String
  smiles : List (List Char)
  ids : List (List Char)
  coords : List (List Char)
  fps : List (List Char)
  binIndices : List Nat
  index : String
  binSize : String
deriving DecidableEq

/-- The degenerate `load:bin` response returned on an out-of-range bin
ordinal or an unparseable record (Go nil slices modelled as `[]`). -/
def emptyBinResponse (data3 : String) : BinResponseMessage :=
  { command := ("load:bin"), smiles := [], ids := [], coords := [], fps := [],
    binIndices := [], index := data3, binSize := ("0") }

/-- The loop of `underdarkLoadBin` over the bin ordinals after the
first: each listed ordinal is range-checked against the bin table
(`none` models the early degenerate return), then the bin's members are
appended to the compound list and the bin ordinal is appended once per
member to the originating-bin list. -/
def collectBins (bins : List (List Nat)) :
    List Nat → List Nat × List Nat → Option (List Nat × List Nat)
  | [], acc => some acc
  | b :: rest, acc =>
    if bins.length ≤ b then none
    else collectBins bins rest
      (acc.1 ++ bins.getD b [], acc.2 ++ (bins.getD b []).map (fun _ => b))

/-- The record loop of `underdarkLoadBin`: for each collected compound
ordinal the record is fetched and split; fewer than three fields is the
early degenerate return (`none`); otherwise field 0 goes to `ids`,
field 1 to `smiles`, and field 2 to both `fps` and `coords`
(`coords[i] = infos[2]` in the source). -/
def buildArrays (infos : Nat → List Char) :
    List Nat → Option (List (List Char) × List (List Char) × List (List Char) × List (List Char))
  | [] => some ([], [], [], [])
  | m :: ms =>
    let f := fetchInfos infos m
    if f.length < 3 then none
    else
      match buildArrays infos ms with
      | none => none
      | some (ids, smiles, fps, coords) =>
        some (f.getD 0 [] :: ids, f.getD 1 [] :: smiles,
              f.getD 2 [] :: fps, f.getD 2 [] :: coords)

/-- The tail of `underdarkLoadBin` after the member union is built:
fetch and split every record, return the degenerate response if one is
short, otherwise assemble the response message with `strconv.Itoa` of
the item count as `BinSize`. -/
def finishBin (infos : Nat → List Char) (data3 : String)
    (compounds compoundBinIndices : List Nat) : Option BinResponseMessage :=
  match buildArrays infos compounds with
  | none => some (emptyBinResponse data3)
  | some (ids, smiles, fps, coords) =>
    some { command := ("load:bin"), smiles := smiles, ids := ids,
           coords := coords, fps := fps,
           binIndices := compoundBinIndices, index := data3,
           binSize := toString compounds.length }

/-- Model of `underdarkLoadBin`.  `bins` is `variantIndices[variantId]`,
`binIdxs` the ordinals parsed from the comma-separated request argument
(`stringToIntArray`), `data3` the raw argument echoed in the `Index`
field.  `binIdxs` is never `[]` in the source (`strings.Split` yields at
least one piece); the `[]` case is the panic the slice access
`binIndices[0]` would be.  The first ordinal is handled before the loop
exactly as in the source; out-of-range ordinals and short records both
produce the degenerate response. -/
def underdarkLoadBin (bins : List (List Nat)) (infos : Nat → List Char)
    (data3 : String) (binIdxs : List Nat) : Option BinResponseMessage :=
  match binIdxs with
  | [] => none
  | b0 :: rest =>
    if bins.length ≤ b0 then some (emptyBinResponse data3)
    else
      match collectBins bins rest
        (bins.getD b0 [], (bins.getD b0 []).map (fun _ => b0)) with
      | none => some (emptyBinResponse data3)
      | some (compounds, compoundBinIndices) =>
        finishBin infos data3 compounds compoundBinIndices

/-- The `BinPreviewResponseMessage` struct, fields in source order. -/
structure BinPreviewResponseMessage where
  command : String
  smiles : List Char
  index : String
  binSize : String
deriving DecidableEq

/-- Model of `underdarkLoadBinPreview`.  `binIndex` is the `int` parsed
by `strconv.Atoi` from the fourth argument and can be negative.  The
source checks `len(variantIndices[variantId]) <= binIndex` and then
indexes the bin table with `binIndex`: a negative value passes the check
and the slice access panics (`none`).  The degenerate branches return
bin size `"0"` with empty smiles and index; the success branch returns
the second space-separated field of the first member's record, and
panics when that record has no second field.  The file-open failure
branch of the source is outside the model (startup validation checked
the file's existence). -/
def underdarkLoadBinPreview (bins : List (List Nat)) (infos : Nat → List Char)
    (data3 : String) (binIndex : Int) : Option BinPreviewResponseMessage :=
  if (bins.length : Int) ≤ binIndex then
    some { command := ("load:binpreview"), smiles := [], index := (""), binSize := ("0") }
  else if binIndex < 0 then none
  else
    let compounds := bins.getD binIndex.toNat []
    if compounds.length < 1 then
      some { command := ("load:binpreview"), smiles := [], index := (""), binSize := ("0") }
    else
      let sp := fetchInfos infos (compounds.getD 0 0)
      if sp.length < 1 then
        some { command := ("load:binpreview"), smiles := [], index := (""), binSize := ("0") }
      else
        match sp with
        | _ :: s1 :: _ =>
          some { command := ("load:binpreview"), smiles := s1, index := data3,
                 binSize := toString compounds.length }
        | _ => none

/-- Model of the per-term test of `search` on one fetched record: the
source evaluates `sp[0] == terms[j]` and, only when that is false,
`sp[1] == terms[j]`.  A record with fewer than two fields makes the
`sp[1]` access panic (`none`); `sp[0]` always exists because
`strings.Split` never returns an empty slice. -/
def termMatch (fields : List (List Char)) (t : List Char) : Option Bool :=
  match fields with
  | [] => none
  | f0 :: rest =>
    if f0 == t then some true
    else
      match rest with
      | [] => none
      | f1 :: _ => some (f1 == t)

/-- Option-valued map over a list, `none` as soon as one element fails:
models a Go loop that panics at the first faulting iteration. -/
def optionMap {α β : Type} (f : α → Option β) : List α → Option (List β)
  | [] => some []
  | a :: as =>
    match f a, optionMap f as with
    | some b, some bs => some (b :: bs)
    | _, _ => none

/-- The inner term loop of the scan phase of `search` for record `i`:
each term's result list gets ordinal `i` appended when the record
matches that term. -/
def searchRecordStep (fields : List (List Char)) (terms : List (List Char))
    (i : Nat) (results : List (List Nat)) : Option (List (List Nat)) :=
  optionMap
    (fun p => (termMatch fields p.1).map (fun b => if b then p.2 ++ [i] else p.2))
    (terms.zip results)

/-- The scan phase of `search` over records `0 .. n-1`, also counting
the `ReadAt` calls performed: the read of record `i` happens before the
term loop of iteration `i`, so it is counted even when that iteration
is the one that panics. -/
def searchScan (infos : Nat → List Char) (terms : List (List Char)) :
    Nat → Option (List (List Nat)) × Nat
  | 0 => (some (terms.map (fun _ => ([] : List Nat))), 0)
  | n + 1 =>
    match searchScan infos terms n with
    | (none, c) => (none, c)
    | (some results, c) => (searchRecordStep (fetchInfos infos n) terms n results, c + 1)

/-- The innermost two loops of the bin-resolution phase of `search` for
one member ordinal `m` of bin `b`: for every term `k` and every entry of
`results[k]` equal to `m`, bin ordinal `b` is appended to that term's
list. -/
def binScanMember (results : List (List Nat)) (b : Nat) (m : Nat)
    (binIdx : List (List Nat)) : List (List Nat) :=
  List.zipWith
    (fun rs bi => bi ++ (rs.filter (fun x => x == m)).map (fun _ => b))
    results binIdx

/-- The bin-resolution phase of `search`: bins in order, members in
stored order, starting from one empty list per term. -/
def binScan (results : List (List Nat)) (bins : List (List Nat)) : List (List Nat) :=
  bins.enum.foldl
    (fun acc p => p.2.foldl (fun acc2 m => binScanMember results p.1 m acc2) acc)
    (results.map (fun _ => ([] : List Nat)))

/-- Model of `search`.  `nLines` is `len(infoOffsets[fingerprintId])`,
`bins` is `variantIndices[variantId]`.  The second component counts the
per-record `ReadAt` calls of the scan phase. -/
def search (infos : Nat → List Char) (nLines : Nat) (bins : List (List Nat))
    (terms : List (List Char)) : Option (List (List Nat)) × Nat :=
  match searchScan infos terms nLines with
  | (none, c) => (none, c)
  | (some results, c) => (some (binScan results bins), c)

/-- Model of `filterSearchTerms`: drops empty search terms, preserving
order. -/
def filterSearchTerms (terms : List (List Char)) : List (List Char) :=
  terms.filter (fun v => !(v.isEmpty))

/-- The declarative matching predicate used to state what `search`
computes: member ordinal `m` matches term `t` when `m` is a record
ordinal of the fingerprint and the record's `id` field (field 0) or
`structure` field (field 1) equals `t`. -/
def recordMatchesTerm (infos : Nat → List Char) (nLines : Nat)
    (t : List Char) (m : Nat) : Bool :=
  decide (m < nLines) &&
    (((fetchInfos infos m).getD 0 [] == t) || ((fetchInfos infos m).getD 1 [] == t))

/-- The declarative per-term result `search` is proved to compute: for
each bin ordinal `b` in order, the ordinal repeated once per member of
bin `b` (in stored order) that matches the term. -/
def specTermBins (infos : Nat → List Char) (nLines : Nat)
    (bins : List (List Nat)) (t : List Char) : List Nat :=
  bins.enum.flatMap
    (fun p => (p.2.filter (recordMatchesTerm infos nLines t)).map (fun _ => p.1))

/-- Model of `countLines`: the dedicated sizing pass counts `'\n'`
bytes of the file contents. -/
def countLines (s : List Char) : Nat := s.count '\n'

/-- Splits file contents at every `'\n'`, keeping empty pieces; helper
for the `bufio.Scanner` line model. -/
def splitLinesAux : List Char → List Char → List (List Char)
  | [], acc => [acc.reverse]
  | c :: rest, acc =>
    if c = '\n' then acc.reverse :: splitLinesAux rest []
    else splitLinesAux rest (c :: acc)

/-- Model of `dropCR` inside `bufio.ScanLines`: a trailing `'\r'` is
stripped from each scanned line. -/
def dropCR (l : List Char) : List Char :=
  if l.getLast? = some '\r' then l.dropLast else l

/-- The lines a `bufio.Scanner` with `ScanLines` yields on the given
contents: one token per line, a final line without trailing `'\n'`
included, the empty remainder after a final `'\n'` not emitted.  The
scanner's maximum token size (a line longer than the buffer stops the
scan early) is idealised away; that limit can only shorten this list. -/
def scanLines (s : List Char) : List (List Char) :=
  if s = [] then []
  else if s.getLast? = some '\n' then ((splitLinesAux s []).dropLast).map dropCR
  else (splitLinesAux s []).map dropCR

/-- Accumulates decimal digits, most significant first. -/
def digitsToNat (cs : List Char) : Nat :=
  cs.foldl (fun a c => a * 10 + (c.toNat - 48)) 0

/-- Model of `strconv.ParseUint(s, 10, bitSize)` with the error
discarded, as the source does: syntax errors yield `0`, range overflow
yields the largest value of the bit size. -/
def parseUintGo (bitSize : Nat) (cs : List Char) : Nat :=
  if cs ≠ [] ∧ cs.all (fun c => c.isDigit) then
    min (digitsToNat cs) (2 ^ bitSize - 1)
  else 0

/-- One line of `readIndexFile`: split on `','`, parse field 0 as the
64-bit offset and field 1 as the 16-bit length (the source widens it to
`uint32`); a line without a `','` makes the `values[1]` access panic. -/
def parseIndexLine (line : List Char) : Option (Nat × Nat) :=
  match splitOnChar ',' line with
  | v0 :: v1 :: _ => some (parseUintGo 64 v0, parseUintGo 16 v1)
  | _ => none

/-- The scanner loop of `readIndexFile`: writes entry `i` of the
offset/length tables for scanned line `i`; a write at `i ≥ n` is the
out-of-range slice write panic (`none`). -/
def fillIndexTables (n : Nat) :
    List (List Char) → Nat → List Nat × List Nat → Option (List Nat × List Nat)
  | [], _, acc => some acc
  | line :: rest, i, acc =>
    match parseIndexLine line with
    | none => none
    | some ol =>
      if i < n then fillIndexTables n rest (i + 1) (acc.1.set i ol.1, acc.2.set i ol.2)
      else none

/-- Model of the loader path for one fingerprint's record-index file:
`loadIndices` sizes both tables to `countLines` of the contents
(`make([]uint64, infosLength)`), then `readIndexFile` fills them line
by line. -/
def readIndexFile (s : List Char) : Option (List Nat × List Nat) :=
  fillIndexTables (countLines s) (scanLines s) 0
    (List.replicate (countLines s) 0, List.replicate (countLines s) 0)

/-- The `RequestMessage` struct. -/
structure RequestMessage where
  command : String
  content : List String
deriving DecidableEq

/-- What the outbound task writes to the connection, one constructor
per kind of frame `Client.write` can emit. -/
inductive Frame where
  | response (m : RequestMessage)
  | ping
  | close
deriving DecidableEq

/-- State of the `send` channel of a `Client`: the buffered requests
(capacity 256) and whether the channel has been closed. -/
structure ChanState where
  buffer : List RequestMessage
  closed : Bool
deriving DecidableEq

/-- One enqueue attempt of the inbound task (`Client.read`): the
`select` with a `default` branch sends when the buffer has a free slot
and otherwise closes the channel instead of blocking.  A send on an
already-closed channel panics (`none`). -/
def clientReadEnqueue (s : ChanState) (m : RequestMessage) : Option ChanState :=
  if s.closed then none
  else if s.buffer.length < 256 then some { buffer := s.buffer ++ [m], closed := false }
  else some { buffer := s.buffer, closed := true }

/-- The frames the outbound task (`Client.write`) emits from a given
channel state when no further request is enqueued: buffered requests
are answered in order; receiving from the closed, drained channel
(`ok == false`) makes it write a close frame and return.  On an open,
drained channel the task blocks (keepalive pings of the idle ticker are
not modelled). -/
def drainFrames : List RequestMessage → Bool → List Frame
  | m :: rest, closed => Frame.response m :: drainFrames rest closed
  | [], closed => if closed then [Frame.close] else []

/-- The outbound task's output from a channel state. -/
def clientWriteFrames (s : ChanState) : List Frame :=
  drainFrames s.buffer s.closed

/-- The `ColorMap` struct (catalog model). -/
structure ColorMap where
  id : List Char
  name : List Char
  description : List Char
  mapFile : List Char
  dataTypes : List (List Char)
deriving DecidableEq

/-- The `Variant` struct (catalog model). -/
structure Variant where
  id : List Char
  name : List Char
  description : List Char
  resolution : Nat
  dataTypes : List (List Char)
  directory : List Char
  indicesFile : List Char
  coordinatesFile : List Char
  colorMaps : List ColorMap
deriving DecidableEq

/-- The `Fingerprint` struct (catalog model; the `Min`/`Max` float
arrays are never touched by id assignment and are omitted). -/
structure Fingerprint where
  id : List Char
  name : List Char
  description : List Char
  directory : List Char
  infosFile : List Char
  infoIndicesFile : List Char
  variants : List Variant
deriving DecidableEq

/-- The `Database` struct (catalog model). -/
structure Database where
  id : List Char
  name : List Char
  description : List Char
  directory : List Char
  fingerprints : List Fingerprint
deriving DecidableEq

/-- The `Configuration` struct (catalog model). -/
structure Configuration where
  databases : List Database
deriving DecidableEq

/-- Go `a + "." + b` on ids. -/
def joinId (a b : List Char) : List Char := a ++ '.' :: b

/-- Id assignment of `loopConfig` with `updateId` set, color-map level:
`colorMap.Id = variant.Id + "." + colorMap.Id`. -/
def assignColorMapId (parentId : List Char) (cm : ColorMap) : ColorMap :=
  { cm with id := joinId parentId cm.id }

/-- Id assignment, variant level: `variant.Id = fingerprint.Id + "." +
variant.Id`, then the variant's color maps. -/
def assignVariantId (parentId : List Char) (v : Variant) : Variant :=
  { v with id := joinId parentId v.id,
           colorMaps := v.colorMaps.map (assignColorMapId (joinId parentId v.id)) }

/-- Id assignment, fingerprint level: `fingerprint.Id = database.Id +
"." + fingerprint.Id`, then the fingerprint's variants. -/
def assignFingerprintId (databaseId : List Char) (fp : Fingerprint) : Fingerprint :=
  { fp with id := joinId databaseId fp.id,
            variants := fp.variants.map (assignVariantId (joinId databaseId fp.id)) }

/-- Id assignment, database level: the database id itself is not
rewritten by `loopConfig`. -/
def assignDatabaseIds (db : Database) : Database :=
  { db with fingerprints := db.fingerprints.map (assignFingerprintId db.id) }

/-- Id assignment over the whole catalog: the single `loopConfig`
traversal `checkConfig` runs with `updateId == true`. -/
def assignIds (cfg : Configuration) : Configuration :=
  { cfg with databases := cfg.databases.map assignDatabaseIds }

/-- All ids of one variant's subtree in the served catalog. -/
def variantIdList (v : Variant) : List (List Char) :=
  v.id :: v.colorMaps.map ColorMap.id

/-- All ids of one fingerprint's subtree in the served catalog. -/
def fingerprintIdList (fp : Fingerprint) : List (List Char) :=
  fp.id :: fp.variants.flatMap variantIdList

/-- All ids of one database's subtree in the served catalog. -/
def databaseIdList (db : Database) : List (List Char) :=
  db.id :: db.fingerprints.flatMap fingerprintIdList

/-- Every id of the served catalog, across databases, fingerprints,
variants and color maps. -/
def allIds (cfg : Configuration) : List (List Char) :=
  cfg.databases.flatMap databaseIdList

/-- A configured id that contains no `'.'`. -/
def dotFree (s : List Char) : Prop := '.' ∉ s

instance (s : List Char) : Decidable (dotFree s) := by
  unfold dotFree
  infer_instance

/-- The distinctness discipline on configured ids under which the
assignment yields globally unique served ids: every configured id is
dot-free and sibling ids are pairwise distinct at each level.  The
loader itself never checks this (`checkConfig` only verifies that the
referenced files exist). -/
def configIdsWellFormed (cfg : Configuration) : Prop :=
  (cfg.databases.map Database.id).Nodup ∧
  ∀ db ∈ cfg.databases, dotFree db.id ∧
    (db.fingerprints.map Fingerprint.id).Nodup ∧
    ∀ fp ∈ db.fingerprints, dotFree fp.id ∧
      (fp.variants.map Variant.id).Nodup ∧
      ∀ v ∈ fp.variants, dotFree v.id ∧
        (v.colorMaps.map ColorMap.id).Nodup ∧
        ∀ cm ∈ v.colorMaps, dotFree cm.id

instance (cfg : Configuration) : Decidable (configIdsWellFormed cfg) := by
  unfold configIdsWellFormed
  infer_instance

/-- A catalog `checkConfig` accepts (it only verifies file existence)
whose two databases carry the same configured id. -/
def demoDupConfig : Configuration :=
  { databases :=
      [ { id := ['a'], name := [], description := [], directory := [], fingerprints := [] },
        { id := ['a'], name := [], description := [], directory := [], fingerprints := [] } ] }

/-- A small catalog with distinct, dot-free configured ids at every
level. -/
def demoConfig : Configuration :=
  { databases :=
      [ { id := ['d', 'b'], name := [], description := [], directory := [],
          fingerprints :=
            [ { id := ['f', 'p'], name := [], description := [], directory := [],
                infosFile := [], infoIndicesFile := [],
                variants :=
                  [ { id := ['v', '1'], name := [], description := [], resolution := 250,
                      dataTypes := [], directory := [], indicesFile := [],
                      coordinatesFile := [],
                      colorMaps :=
                        [ { id := ['m', '1'], name := [], description := [],
                            mapFile := [], dataTypes := [] },
                          { id := ['m', '2'], name := [], description := [],
                            mapFile := [], dataTypes := [] } ] },
                    { id := ['v', '2'], name := [], description := [], resolution := 500,
                      dataTypes := [], directory := [], indicesFile := [],
                      coordinatesFile := [], colorMaps := [] } ] } ] } ] }

/-! Theorems. -/

theorem foldl_min_min (l : List Nat) :
    ∀ a b : Nat, l.foldl Nat.min (Nat.min a b) = Nat.min a (l.foldl Nat.min b) := by
  induction l with
  | nil => intro a b; rfl
  | cons c l ih =>
    intro a b
    show l.foldl Nat.min (Nat.min (Nat.min a b) c) = Nat.min a (l.foldl Nat.min (Nat.min b c))
    rw [show Nat.min (Nat.min a b) c = Nat.min a (Nat.min b c) from Nat.min_assoc a b c, ih]

theorem calcStats_eq (bins : List (List Nat)) (hlen : bins.length ≠ 0) :
    calcStats bins = some
      { compoundCount := (bins.map List.length).sum,
        binCount := bins.length,
        avgBinSize := (bins.map List.length).sum / bins.length,
        binHist := bins.foldl (fun h b => h.set b.length ((h.getD b.length 0) + 1))
          (List.replicate ((bins.map List.length).foldl Nat.max 0 + 1) 0),
        histMin := (bins.map List.length).foldl Nat.min 9999,
        histMax := (bins.map List.length).foldl Nat.max 0 } := by
  unfold calcStats
  simp only [if_neg hlen]

theorem foldl_min_le (l : List Nat) : ∀ a : Nat, l.foldl Nat.min a ≤ a := by
  induction l with
  | nil => intro a; exact Nat.le_refl a
  | cons c l ih =>
    intro a
    exact Nat.le_trans (ih (Nat.min a c)) (Nat.min_le_left a c)

/-- Claim C8 (counterexample): a variant with zero bins does not get a
defined average; `calcStats` hits Go integer division by zero and
faults. -/
theorem calcStats_zero_bins_faults : calcStats [] = none := by decide

/-- Claim C8 (amended): for every variant with at least one bin the
precomputed `avgBinSize` is the truncating integer quotient of the
total compound count by the bin count; a zero-bin variant faults
instead. -/
theorem calcStats_avg_truncated (bins : List (List Nat)) (hne : bins ≠ []) :
    ∃ st, calcStats bins = some st ∧
      st.compoundCount = (bins.map List.length).sum ∧
      st.binCount = bins.length ∧
      st.avgBinSize * bins.length ≤ (bins.map List.length).sum ∧
      (bins.map List.length).sum < (st.avgBinSize + 1) * bins.length := by
  have hlen : bins.length ≠ 0 := fun h => hne (List.length_eq_zero.mp h)
  refine ⟨_, calcStats_eq bins hlen, rfl, rfl, ?_, ?_⟩
  · show (bins.map List.length).sum / bins.length * bins.length ≤ (bins.map List.length).sum
    exact Nat.div_mul_le_self _ _
  · show (bins.map List.length).sum < ((bins.map List.length).sum / bins.length + 1) * bins.length
    have h2 : (bins.map List.length).sum % bins.length < bins.length :=
      Nat.mod_lt _ (Nat.pos_of_ne_zero hlen)
    calc (bins.map List.length).sum
        = bins.length * ((bins.map List.length).sum / bins.length) +
            (bins.map List.length).sum % bins.length := (Nat.div_add_mod _ _).symm
      _ < bins.length * ((bins.map List.length).sum / bins.length) + bins.length :=
          Nat.add_lt_add_left h2 _
      _ = ((bins.map List.length).sum / bins.length + 1) * bins.length := by ring

/-- Claim C8 (witness). -/
theorem calcStats_avg_truncated_w :
    ∃ st, calcStats [[0], [1, 2], [3, 4]] = some st ∧
      st.compoundCount = ([[0], [1, 2], [3, 4]].map List.length).sum ∧
      st.binCount = ([[0], [1, 2], [3, 4]] : List (List Nat)).length ∧
      st.avgBinSize * ([[0], [1, 2], [3, 4]] : List (List Nat)).length ≤
        ([[0], [1, 2], [3, 4]].map List.length).sum ∧
      ([[0], [1, 2], [3, 4]].map List.length).sum <
        (st.avgBinSize + 1) * ([[0], [1, 2], [3, 4]] : List (List Nat)).length :=
  calcStats_avg_truncated [[0], [1, 2], [3, 4]] (by decide)

/-- Claim C10: for a variant with at least one bin (witnessed by the
minimum `m` of the bin populations), the reported `histMin` is the
minimum of the smallest bin population and the `9999` start value of
the accumulation, and so never exceeds `9999`. -/
theorem calcStats_histMin_clipped (bins : List (List Nat)) (m : Nat)
    (hm : (bins.map List.length).min? = some m) :
    ∃ st, calcStats bins = some st ∧ st.histMin = Nat.min m 9999 ∧ st.histMin ≤ 9999 := by
  have hne : bins.length ≠ 0 := by
    intro h
    rw [List.length_eq_zero.mp h] at hm
    simp [List.min?] at hm
  refine ⟨_, calcStats_eq bins hne, ?_, ?_⟩
  · show (bins.map List.length).foldl Nat.min 9999 = Nat.min m 9999
    cases hl : bins.map List.length with
    | nil => rw [hl] at hm; simp [List.min?] at hm
    | cons x xs =>
      rw [hl] at hm
      have hm' : xs.foldl Nat.min x = m := by
        have : (x :: xs).min? = some (xs.foldl Nat.min x) := rfl
        rw [this] at hm
        exact Option.some.inj hm
      show xs.foldl Nat.min (Nat.min 9999 x) = Nat.min m 9999
      rw [foldl_min_min, hm']
      exact Nat.min_comm 9999 m
  · exact foldl_min_le _ _

/-- Claim C10 (witness). -/
theorem calcStats_histMin_clipped_w :
    ∃ st, calcStats [[0], [1, 2]] = some st ∧
      st.histMin = Nat.min 1 9999 ∧ st.histMin ≤ 9999 :=
  calcStats_histMin_clipped [[0], [1, 2]] 1 (by decide)

/-- Claim C2 (counterexample): a negative bin ordinal is an integer
ordinal that denotes no existing bin, yet the handler faults: `-1`
passes the `len(variantIndices[variantId]) <= binIndex` check and the
subsequent slice access panics. -/
theorem loadBinPreview_negative_ordinal_faults :
    underdarkLoadBinPreview [[0]] (fun _ => ("A B").toList) ("-1") (-1) = none := by
  decide

/-- Claim C2 (amended): for every bin ordinal greater than or equal to
the variant's bin count the handler returns the degenerate response
with bin size `"0"` and empty smiles/index fields, without faulting;
negative ordinals, by contrast, fault. -/
theorem loadBinPreview_overflow_ordinal_degenerate (bins : List (List Nat))
    (infos : Nat → List Char) (data3 : String) (binIndex : Int)
    (h : (bins.length : Int) ≤ binIndex) :
    underdarkLoadBinPreview bins infos data3 binIndex =
      some { command := ("load:binpreview"), smiles := [], index := (""),
             binSize := ("0") } := by
  unfold underdarkLoadBinPreview
  rw [if_pos h]

/-- Claim C2 (witness). -/
theorem loadBinPreview_overflow_ordinal_degenerate_w :
    underdarkLoadBinPreview [[0], [1, 2]] (fun _ => ("A B").toList) ("5") 5 =
      some { command := ("load:binpreview"), smiles := [], index := (""),
             binSize := ("0") } :=
  loadBinPreview_overflow_ordinal_degenerate [[0], [1, 2]] (fun _ => ("A B").toList)
    ("5") 5 (by decide)

theorem drainFrames_closed (l : List RequestMessage) :
    drainFrames l true = l.map Frame.response ++ [Frame.close] := by
  induction l with
  | nil => rfl
  | cons m rest ih => simp [drainFrames, ih]

/-- Claim C7: when a decoded request arrives while the 256-slot queue
already holds 256 pending requests, the inbound task does not block: the
enqueue step returns at once having closed the queue (buffer unchanged),
and the outbound task then answers the buffered requests, writes a close
frame and stops. -/
theorem clientRead_full_queue_closes (s : ChanState) (m : RequestMessage)
    (hopen : s.closed = false) (hfull : s.buffer.length = 256) :
    clientReadEnqueue s m = some { buffer := s.buffer, closed := true } ∧
    clientWriteFrames { buffer := s.buffer, closed := true } =
      s.buffer.map Frame.response ++ [Frame.close] := by
  constructor
  · unfold clientReadEnqueue
    rw [hopen, hfull]
    simp
  · exact drainFrames_closed s.buffer

set_option maxRecDepth 4000 in
/-- Claim C7 (witness). -/
theorem clientRead_full_queue_closes_w :
    clientReadEnqueue
        { buffer := List.replicate 256 { command := ("init"), content := [] },
          closed := false }
        { command := ("load:bin"), content := [] } =
      some { buffer := List.replicate 256 { command := ("init"), content := [] },
             closed := true } ∧
    clientWriteFrames
        { buffer := List.replicate 256 { command := ("init"), content := [] },
          closed := true } =
      (List.replicate 256 { command := ("init"), content := [] }).map Frame.response ++
        [Frame.close] :=
  clientRead_full_queue_closes
    { buffer := List.replicate 256 { command := ("init"), content := [] },
      closed := false }
    { command := ("load:bin"), content := [] } rfl
    (List.length_replicate 256 { command := ("init"), content := [] })

theorem splitLinesAux_length (s : List Char) :
    ∀ acc : List Char, (splitLinesAux s acc).length = s.count '\n' + 1 := by
  induction s with
  | nil => intro acc; simp [splitLinesAux]
  | cons c rest ih =>
    intro acc
    by_cases hc : c = '\n'
    · subst hc
      simp [splitLinesAux, ih, List.count_cons]
    · simp [splitLinesAux, hc, ih, List.count_cons]

theorem scanLines_length_of_terminated (s : List Char)
    (hterm : s = [] ∨ s.getLast? = some '\n') :
    (scanLines s).length = countLines s := by
  rcases hterm with h | h
  · subst h; rfl
  · have hne : s ≠ [] := by
      intro h0
      rw [h0] at h
      simp at h
    unfold scanLines
    rw [if_neg hne, if_pos h]
    rw [List.length_map, List.length_dropLast, splitLinesAux_length]
    rfl

theorem fillIndexTables_complete (n : Nat) (toks : List (List Char)) :
    ∀ (i : Nat) (offs lens : List Nat),
    (∀ l ∈ toks, parseIndexLine l ≠ none) → i + toks.length ≤ n →
    ∃ offs' lens', fillIndexTables n toks i (offs, lens) = some (offs', lens') ∧
      offs'.length = offs.length ∧ lens'.length = lens.length := by
  induction toks with
  | nil => intro i offs lens _ _; exact ⟨offs, lens, rfl, rfl, rfl⟩
  | cons line rest ih =>
    intro i offs lens hp hb
    have hline : parseIndexLine line ≠ none := hp line (List.mem_cons_self line rest)
    cases hpl : parseIndexLine line with
    | none => exact absurd hpl hline
    | some ol =>
      have hi : i < n := by
        simp only [List.length_cons] at hb
        omega
      have hrest : ∀ l ∈ rest, parseIndexLine l ≠ none :=
        fun l hl => hp l (List.mem_cons_of_mem line hl)
      have hb' : i + 1 + rest.length ≤ n := by
        simp only [List.length_cons] at hb
        omega
      obtain ⟨offs', lens', heq, ho, hl⟩ := ih (i + 1) (offs.set i ol.1) (lens.set i ol.2) hrest hb'
      refine ⟨offs', lens', ?_, ?_, ?_⟩
      · unfold fillIndexTables
        rw [hpl]
        show (if i < n then
            fillIndexTables n rest (i + 1) (offs.set i ol.1, lens.set i ol.2)
          else none) = some (offs', lens')
        rw [if_pos hi]
        exact heq
      · rw [ho, List.length_set]
      · rw [hl, List.length_set]

/-- Claim C6 (counterexample): index-file contents whose final line is
not newline-terminated: the sizing byte-scan counts one separator, the
line-by-line pass sees two lines, and the population loop writes out of
the one-entry tables' range. -/
theorem readIndexFile_unterminated_overflow :
    countLines (("0,1\n2,3").toList) = 1 ∧
    (scanLines (("0,1\n2,3").toList)).length = 2 ∧
    readIndexFile (("0,1\n2,3").toList) = none := by
  decide

/-- Claim C6 (amended): the loader sizes the offset/length tables to
exactly the separator count of the dedicated byte-scan, and the parsing
pass writes only in-bounds entries provided the contents are empty or
end with a line separator (and every scanned line parses); a file whose
final line lacks the separator yields one more parsed line than counted
and the population loop writes out of range. -/
theorem readIndexFile_sized_and_in_bounds (s : List Char)
    (hterm : s = [] ∨ s.getLast? = some '\n')
    (hparse : ∀ line ∈ scanLines s, parseIndexLine line ≠ none) :
    ∃ offs lens, readIndexFile s = some (offs, lens) ∧
      offs.length = countLines s ∧ lens.length = countLines s := by
  have hlen : (scanLines s).length = countLines s := scanLines_length_of_terminated s hterm
  have hb : 0 + (scanLines s).length ≤ countLines s := by omega
  obtain ⟨offs, lens, heq, ho, hl⟩ :=
    fillIndexTables_complete (countLines s) (scanLines s) 0
      (List.replicate (countLines s) 0) (List.replicate (countLines s) 0) hparse hb
  exact ⟨offs, lens, heq, by rw [ho, List.length_replicate], by rw [hl, List.length_replicate]⟩

/-- Claim C6 (witness). -/
theorem readIndexFile_sized_and_in_bounds_w :
    ∃ offs lens, readIndexFile (("7,3\n12,5\n").toList) = some (offs, lens) ∧
      offs.length = countLines (("7,3\n12,5\n").toList) ∧
      lens.length = countLines (("7,3\n12,5\n").toList) :=
  readIndexFile_sized_and_in_bounds (("7,3\n12,5\n").toList) (by decide) (by decide)

theorem map_const_eq_replicate {α β : Type} (l : List α) (b : β) :
    l.map (fun _ => b) = List.replicate l.length b := by
  induction l with
  | nil => rfl
  | cons a l ih => simp [List.replicate, ih]

theorem collectBins_complete (bins : List (List Nat)) (l : List Nat) :
    ∀ cs cbi : List Nat, (∀ b ∈ l, b < bins.length) →
    collectBins bins l (cs, cbi) =
      some (cs ++ l.flatMap (fun b => bins.getD b []),
            cbi ++ l.flatMap (fun b => (bins.getD b []).map (fun _ => b))) := by
  induction l with
  | nil => intro cs cbi _; simp [collectBins]
  | cons b rest ih =>
    intro cs cbi hr
    have hb : b < bins.length := hr b (List.mem_cons_self b rest)
    have hrest : ∀ x ∈ rest, x < bins.length :=
      fun x hx => hr x (List.mem_cons_of_mem b hx)
    unfold collectBins
    rw [if_neg (Nat.not_le_of_lt hb)]
    rw [ih (cs ++ bins.getD b []) (cbi ++ (bins.getD b []).map (fun _ => b)) hrest]
    simp [List.append_assoc]

theorem buildArrays_complete (infos : Nat → List Char) (ms : List Nat)
    (hp : ∀ m ∈ ms, 3 ≤ (fetchInfos infos m).length) :
    buildArrays infos ms = some
      (ms.map (fun m => (fetchInfos infos m).getD 0 []),
       ms.map (fun m => (fetchInfos infos m).getD 1 []),
       ms.map (fun m => (fetchInfos infos m).getD 2 []),
       ms.map (fun m => (fetchInfos infos m).getD 2 [])) := by
  induction ms with
  | nil => rfl
  | cons m rest ih =>
    have hm : 3 ≤ (fetchInfos infos m).length := hp m (List.mem_cons_self m rest)
    have hrest : ∀ x ∈ rest, 3 ≤ (fetchInfos infos x).length :=
      fun x hx => hp x (List.mem_cons_of_mem m hx)
    unfold buildArrays
    rw [if_neg (Nat.not_lt_of_le hm)]
    rw [ih hrest]
    simp

theorem finishBin_eq (infos : Nat → List Char) (data3 : String)
    (compounds cbi : List Nat)
    (hp : ∀ m ∈ compounds, 3 ≤ (fetchInfos infos m).length) :
    finishBin infos data3 compounds cbi = some
      { command := ("load:bin"),
        smiles := compounds.map (fun m => (fetchInfos infos m).getD 1 []),
        ids := compounds.map (fun m => (fetchInfos infos m).getD 0 []),
        coords := compounds.map (fun m => (fetchInfos infos m).getD 2 []),
        fps := compounds.map (fun m => (fetchInfos infos m).getD 2 []),
        binIndices := cbi, index := data3,
        binSize := toString compounds.length } := by
  unfold finishBin
  rw [buildArrays_complete infos compounds hp]

theorem loadBin_complete (bins : List (List Nat)) (infos : Nat → List Char)
    (data3 : String) (b0 : Nat) (rest : List Nat)
    (hrange : ∀ b ∈ b0 :: rest, b < bins.length)
    (hparse : ∀ b ∈ b0 :: rest, ∀ m ∈ bins.getD b [], 3 ≤ (fetchInfos infos m).length) :
    underdarkLoadBin bins infos data3 (b0 :: rest) = some
      { command := ("load:bin"),
        smiles := ((b0 :: rest).flatMap (fun b => bins.getD b [])).map
          (fun m => (fetchInfos infos m).getD 1 []),
        ids := ((b0 :: rest).flatMap (fun b => bins.getD b [])).map
          (fun m => (fetchInfos infos m).getD 0 []),
        coords := ((b0 :: rest).flatMap (fun b => bins.getD b [])).map
          (fun m => (fetchInfos infos m).getD 2 []),
        fps := ((b0 :: rest).flatMap (fun b => bins.getD b [])).map
          (fun m => (fetchInfos infos m).getD 2 []),
        binIndices := (b0 :: rest).flatMap (fun b => (bins.getD b []).map (fun _ => b)),
        index := data3,
        binSize := toString ((b0 :: rest).flatMap (fun b => bins.getD b [])).length } := by
  have hb0 : b0 < bins.length := hrange b0 (List.mem_cons_self b0 rest)
  have hrest : ∀ b ∈ rest, b < bins.length :=
    fun b hb => hrange b (List.mem_cons_of_mem b0 hb)
  have hmem : ∀ m ∈ (b0 :: rest).flatMap (fun b => bins.getD b []),
      3 ≤ (fetchInfos infos m).length := by
    intro m hm
    obtain ⟨b, hb, hmb⟩ := List.mem_flatMap.mp hm
    exact hparse b hb m hmb
  have hcollect : collectBins bins rest
      (bins.getD b0 [], (bins.getD b0 []).map (fun _ => b0)) =
      some ((b0 :: rest).flatMap (fun b => bins.getD b []),
            (b0 :: rest).flatMap (fun b => (bins.getD b []).map (fun _ => b))) := by
    rw [collectBins_complete bins rest (bins.getD b0 [])
      ((bins.getD b0 []).map (fun _ => b0)) hrest]
    rw [List.flatMap_cons, List.flatMap_cons]
  show (if bins.length ≤ b0 then some (emptyBinResponse data3)
    else
      match collectBins bins rest
        (bins.getD b0 [], (bins.getD b0 []).map (fun _ => b0)) with
      | none => some (emptyBinResponse data3)
      | some (compounds, compoundBinIndices) =>
        finishBin infos data3 compounds compoundBinIndices) = _
  rw [if_neg (Nat.not_le_of_lt hb0), hcollect]
  exact finishBin_eq infos data3 _ _ hmem

/-- Claim C1: for a `load:bin` request whose listed bin ordinals are all
in range and whose member records all have the three required fields,
the response holds exactly one item per member of each listed bin —
bins in listed order, members in stored order (witnessed on the `ids`
array) — and the originating-bin array repeats each listed ordinal once
per member in that same order. -/
theorem loadBin_one_item_per_member (bins : List (List Nat)) (infos : Nat → List Char)
    (data3 : String) (b0 : Nat) (rest : List Nat)
    (hrange : ∀ b ∈ b0 :: rest, b < bins.length)
    (hparse : ∀ b ∈ b0 :: rest, ∀ m ∈ bins.getD b [], 3 ≤ (fetchInfos infos m).length) :
    ∃ msg, underdarkLoadBin bins infos data3 (b0 :: rest) = some msg ∧
      msg.binIndices =
        (b0 :: rest).flatMap (fun b => List.replicate (bins.getD b []).length b) ∧
      msg.ids = ((b0 :: rest).flatMap (fun b => bins.getD b [])).map
        (fun m => (fetchInfos infos m).getD 0 []) ∧
      msg.ids.length = ((b0 :: rest).map (fun b => (bins.getD b []).length)).sum := by
  refine ⟨_, loadBin_complete bins infos data3 b0 rest hrange hparse, ?_, rfl, ?_⟩
  · show (b0 :: rest).flatMap (fun b => (bins.getD b []).map (fun _ => b)) =
      (b0 :: rest).flatMap (fun b => List.replicate (bins.getD b []).length b)
    exact congrArg (List.flatMap (b0 :: rest))
      (funext fun b => map_const_eq_replicate (bins.getD b []) b)
  · show (((b0 :: rest).flatMap (fun b => bins.getD b [])).map
        (fun m => (fetchInfos infos m).getD 0 [])).length =
      ((b0 :: rest).map (fun b => (bins.getD b []).length)).sum
    rw [List.length_map, List.length_flatMap]
    rfl

/-- Claim C1 (witness): bins `[2,5]` with three and two members give
five items with originating-bin array `[2,2,2,5,5]`. -/
theorem loadBin_one_item_per_member_w :
    ∃ msg, underdarkLoadBin [[], [], [10, 11, 12], [], [], [20, 21]]
        (fun _ => ("i s f c").toList) ("2,5") (2 :: [5]) = some msg ∧
      msg.binIndices = (2 :: [5]).flatMap
        (fun b => List.replicate (([[], [], [10, 11, 12], [], [], [20, 21]] :
          List (List Nat)).getD b []).length b) ∧
      msg.ids = ((2 :: [5]).flatMap (fun b => ([[], [], [10, 11, 12], [], [], [20, 21]] :
          List (List Nat)).getD b [])).map
        (fun m => (fetchInfos (fun _ => ("i s f c").toList) m).getD 0 []) ∧
      msg.ids.length = ((2 :: [5]).map (fun b => (([[], [], [10, 11, 12], [], [], [20, 21]] :
          List (List Nat)).getD b []).length)).sum :=
  loadBin_one_item_per_member [[], [], [10, 11, 12], [], [], [20, 21]]
    (fun _ => ("i s f c").toList) ("2,5") 2 [5] (by decide) (by decide)

/-- Claim C4 (counterexample): for a record with four distinct fields
the returned coordinates array carries the third field (the
fingerprint string), not the fourth (the coordinates field): the source
assigns `coords[i] = infos[2]`. -/
theorem loadBin_coords_not_fourth_field :
    (underdarkLoadBin [[0]] (fun _ => ("id0 smi0 fp0 xyz0").toList) ("0") [0]).map
      BinResponseMessage.coords = some [("fp0").toList] ∧
    (fetchInfos (fun _ => ("id0 smi0 fp0 xyz0").toList) 0).getD 3 [] = ("xyz0").toList ∧
    ("fp0").toList ≠ ("xyz0").toList := by
  decide

/-- Claim C4 (amended): for a `load:bin` request over in-range ordinals
whose records parse, the `ids` array holds each record's field 0 (id),
the `smiles` array field 1 (structure), and the `fps` and `coords`
arrays both hold field 2 (the fingerprint string); the record's
coordinates field is not returned. -/
theorem loadBin_field_sources (bins : List (List Nat)) (infos : Nat → List Char)
    (data3 : String) (b0 : Nat) (rest : List Nat)
    (hrange : ∀ b ∈ b0 :: rest, b < bins.length)
    (hparse : ∀ b ∈ b0 :: rest, ∀ m ∈ bins.getD b [], 3 ≤ (fetchInfos infos m).length) :
    ∃ msg, underdarkLoadBin bins infos data3 (b0 :: rest) = some msg ∧
      msg.ids = ((b0 :: rest).flatMap (fun b => bins.getD b [])).map
        (fun m => (fetchInfos infos m).getD 0 []) ∧
      msg.smiles = ((b0 :: rest).flatMap (fun b => bins.getD b [])).map
        (fun m => (fetchInfos infos m).getD 1 []) ∧
      msg.fps = ((b0 :: rest).flatMap (fun b => bins.getD b [])).map
        (fun m => (fetchInfos infos m).getD 2 []) ∧
      msg.coords = ((b0 :: rest).flatMap (fun b => bins.getD b [])).map
        (fun m => (fetchInfos infos m).getD 2 []) :=
  ⟨_, loadBin_complete bins infos data3 b0 rest hrange hparse, rfl, rfl, rfl, rfl⟩

/-- Claim C4 (witness). -/
theorem loadBin_field_sources_w :
    ∃ msg, underdarkLoadBin [[0, 1]] (fun _ => ("a b c d").toList) ("0") (0 :: []) = some msg ∧
      msg.ids = ((0 :: []).flatMap (fun b => ([[0, 1]] : List (List Nat)).getD b [])).map
        (fun m => (fetchInfos (fun _ => ("a b c d").toList) m).getD 0 []) ∧
      msg.smiles = ((0 :: []).flatMap (fun b => ([[0, 1]] : List (List Nat)).getD b [])).map
        (fun m => (fetchInfos (fun _ => ("a b c d").toList) m).getD 1 []) ∧
      msg.fps = ((0 :: []).flatMap (fun b => ([[0, 1]] : List (List Nat)).getD b [])).map
        (fun m => (fetchInfos (fun _ => ("a b c d").toList) m).getD 2 []) ∧
      msg.coords = ((0 :: []).flatMap (fun b => ([[0, 1]] : List (List Nat)).getD b [])).map
        (fun m => (fetchInfos (fun _ => ("a b c d").toList) m).getD 2 []) :=
  loadBin_field_sources [[0, 1]] (fun _ => ("a b c d").toList) ("0") 0 []
    (by decide) (by decide)

theorem termMatch_two_fields (f0 f1 : List Char) (r : List (List Char)) (t : List Char) :
    termMatch (f0 :: f1 :: r) t = some ((f0 == t) || (f1 == t)) := by
  unfold termMatch
  cases hb : f0 == t with
  | true => simp [hb]
  | false => simp [hb]

theorem termMatch_ne_none (fields : List (List Char)) (t : List Char)
    (h2 : 2 ≤ fields.length) : termMatch fields t ≠ none := by
  match fields, h2 with
  | f0 :: f1 :: r, _ =>
    rw [termMatch_two_fields]
    exact Option.some_ne_none _

theorem optionMap_zip_map (fields : List (List Char)) (i : Nat)
    (terms : List (List Char)) :
    ∀ g : List Char → List Nat,
    (∀ t ∈ terms, termMatch fields t ≠ none) →
    optionMap
      (fun p => (termMatch fields p.1).map (fun b => if b then p.2 ++ [i] else p.2))
      (terms.zip (terms.map g)) =
      some (terms.map (fun t =>
        if (termMatch fields t).getD false then g t ++ [i] else g t)) := by
  induction terms with
  | nil => intro g _; rfl
  | cons t ts ih =>
    intro g h
    have ht : termMatch fields t ≠ none := h t (List.mem_cons_self t ts)
    obtain ⟨b, hb⟩ := Option.ne_none_iff_exists.mp ht
    have hts : ∀ x ∈ ts, termMatch fields x ≠ none :=
      fun x hx => h x (List.mem_cons_of_mem t hx)
    rw [List.map_cons, List.zip_cons_cons]
    unfold optionMap
    rw [ih g hts]
    simp [← hb]

theorem searchRecordStep_map (fields : List (List Char)) (i : Nat)
    (terms : List (List Char)) (g : List Char → List Nat)
    (h : ∀ t ∈ terms, termMatch fields t ≠ none) :
    searchRecordStep fields terms i (terms.map g) =
      some (terms.map (fun t =>
        if (termMatch fields t).getD false then g t ++ [i] else g t)) := by
  unfold searchRecordStep
  exact optionMap_zip_map fields i terms g h

theorem range_succ_filter (p : Nat → Bool) (n : Nat) :
    (List.range (n + 1)).filter p =
      (List.range n).filter p ++ (if p n then [n] else []) := by
  rw [List.range_succ, List.filter_append]
  congr 1
  rw [List.filter_cons]
  by_cases hp : p n
  · rw [if_pos hp, if_pos hp]
    rfl
  · rw [if_neg hp, if_neg hp]
    rfl

theorem searchScan_filter (infos : Nat → List Char) (terms : List (List Char)) :
    ∀ n : Nat, (∀ i, i < n → ∀ t ∈ terms, termMatch (fetchInfos infos i) t ≠ none) →
    searchScan infos terms n =
      (some (terms.map (fun t => (List.range n).filter
        (fun i => (termMatch (fetchInfos infos i) t).getD false))), n) := by
  intro n
  induction n with
  | zero => intro _; rfl
  | succ n ih =>
    intro h
    have hn : ∀ t ∈ terms, termMatch (fetchInfos infos n) t ≠ none :=
      fun t ht => h n (Nat.lt_succ_self n) t ht
    have h' : ∀ i, i < n → ∀ t ∈ terms, termMatch (fetchInfos infos i) t ≠ none :=
      fun i hi => h i (Nat.lt_succ_of_lt hi)
    show (match searchScan infos terms n with
      | (none, c) => (none, c)
      | (some results, c) =>
        (searchRecordStep (fetchInfos infos n) terms n results, c + 1)) = _
    rw [ih h']
    show (searchRecordStep (fetchInfos infos n) terms n
      (terms.map (fun t => (List.range n).filter
        (fun i => (termMatch (fetchInfos infos i) t).getD false))), n + 1) = _
    rw [searchRecordStep_map _ _ _ _ hn]
    refine congrArg (fun l => (some l, n + 1)) ?_
    refine List.map_congr_left (fun t _ => ?_)
    rw [range_succ_filter]
    by_cases hp : (termMatch (fetchInfos infos n) t).getD false
    · rw [if_pos hp, if_pos hp]
    · rw [if_neg hp, if_neg hp, List.append_nil]

theorem binScanMember_map (terms : List (List Char)) (R A : List Char → List Nat)
    (b m : Nat) :
    binScanMember (terms.map R) b m (terms.map A) =
      terms.map (fun t => A t ++ ((R t).filter (fun x => x == m)).map (fun _ => b)) := by
  unfold binScanMember
  rw [List.zipWith_map, List.zipWith_same]

theorem binScanFold_members (terms : List (List Char)) (R : List Char → List Nat)
    (b : Nat) (ms : List Nat) :
    ∀ A : List Char → List Nat,
    ms.foldl (fun acc m => binScanMember (terms.map R) b m acc) (terms.map A) =
      terms.map (fun t => A t ++ ms.flatMap
        (fun m => ((R t).filter (fun x => x == m)).map (fun _ => b))) := by
  induction ms with
  | nil =>
    intro A
    exact List.map_congr_left (fun t _ => by rw [List.flatMap_nil, List.append_nil])
  | cons m ms ih =>
    intro A
    show ms.foldl _ (binScanMember (terms.map R) b m (terms.map A)) = _
    rw [binScanMember_map]
    rw [ih (fun t => A t ++ ((R t).filter (fun x => x == m)).map (fun _ => b))]
    exact List.map_congr_left (fun t _ => by rw [List.flatMap_cons, List.append_assoc])

theorem binScanFold_bins (terms : List (List Char)) (R : List Char → List Nat)
    (l : List (Nat × List Nat)) :
    ∀ A : List Char → List Nat,
    l.foldl
      (fun acc p => p.2.foldl (fun acc2 m => binScanMember (terms.map R) p.1 m acc2) acc)
      (terms.map A) =
      terms.map (fun t => A t ++ l.flatMap (fun p => p.2.flatMap
        (fun m => ((R t).filter (fun x => x == m)).map (fun _ => p.1)))) := by
  induction l with
  | nil =>
    intro A
    exact List.map_congr_left (fun t _ => by rw [List.flatMap_nil, List.append_nil])
  | cons p l ih =>
    intro A
    show l.foldl _
      (p.2.foldl (fun acc2 m => binScanMember (terms.map R) p.1 m acc2) (terms.map A)) = _
    rw [binScanFold_members terms R p.1 p.2 A]
    rw [ih (fun t => A t ++ p.2.flatMap
      (fun m => ((R t).filter (fun x => x == m)).map (fun _ => p.1)))]
    exact List.map_congr_left (fun t _ => by rw [List.flatMap_cons, List.append_assoc])

theorem binScan_map (terms : List (List Char)) (R : List Char → List Nat)
    (bins : List (List Nat)) :
    binScan (terms.map R) bins =
      terms.map (fun t => bins.enum.flatMap (fun p => p.2.flatMap
        (fun m => ((R t).filter (fun x => x == m)).map (fun _ => p.1)))) := by
  unfold binScan
  rw [List.map_map]
  rw [binScanFold_bins terms R bins.enum ((fun _ => ([] : List Nat)) ∘ R)]
  exact List.map_congr_left (fun t _ => by rw [Function.comp_apply, List.nil_append])

theorem filter_range_beq (p : Nat → Bool) (m : Nat) :
    ∀ n : Nat, (List.range n).filter (fun x => (x == m) && p x) =
      if decide (m < n) && p m then [m] else [] := by
  intro n
  induction n with
  | zero => simp
  | succ n ih =>
    rw [range_succ_filter, ih]
    by_cases hm : m = n
    · subst hm
      have h1 : decide (m < m) = false := by simp
      have h2 : decide (m < m + 1) = true := by simp
      rw [h1, h2]
      cases hp : p m <;> simp [hp]
    · have h1 : (n == m) = false := by
        simp only [beq_eq_false_iff_ne, ne_eq]
        exact fun h => hm h.symm
      have h2 : decide (m < n + 1) = decide (m < n) := by
        have : (m < n + 1) ↔ (m < n) := by omega
        simp [this]
      rw [h1, h2]
      simp

theorem flatMap_if_singleton (l : List Nat) (q : Nat → Bool) (b : Nat) :
    l.flatMap (fun m => if q m then [b] else []) = (l.filter q).map (fun _ => b) := by
  induction l with
  | nil => rfl
  | cons m ms ih =>
    rw [List.flatMap_cons, List.filter_cons]
    by_cases h : q m
    · rw [if_pos h, if_pos h, List.map_cons, ih]
      rfl
    · rw [if_neg h, if_neg h, List.nil_append, ih]

/-- Claim C3: for a search over a non-empty filtered term list, against
records that all carry at least the id and structure fields, the
per-term result list for each term contains bin ordinal `b` once per
(member, match) pair: matches are recorded over compound ordinals
`0..N-1`, tested on the id field (field 0) and the structure field
(field 1), bins in order with members in stored order, duplicates not
removed. -/
theorem search_per_term_bin_hits (infos : Nat → List Char) (nLines : Nat)
    (bins : List (List Nat)) (terms : List (List Char))
    (hne : terms ≠ [])
    (hwf : ∀ i, i < nLines → 2 ≤ (fetchInfos infos i).length) :
    (search infos nLines bins terms).1 =
      some (terms.map (specTermBins infos nLines bins)) := by
  have htot : ∀ i, i < nLines → ∀ t ∈ terms, termMatch (fetchInfos infos i) t ≠ none :=
    fun i hi t _ => termMatch_ne_none _ t (hwf i hi)
  unfold search
  rw [searchScan_filter infos terms nLines htot]
  show some (binScan (terms.map (fun t => (List.range nLines).filter
    (fun i => (termMatch (fetchInfos infos i) t).getD false))) bins) = _
  rw [binScan_map]
  refine congrArg some (List.map_congr_left (fun t _ => ?_))
  unfold specTermBins
  refine congrArg (List.flatMap bins.enum) (funext fun p => ?_)
  have hq : ∀ m : Nat,
      (decide (m < nLines) && (termMatch (fetchInfos infos m) t).getD false) =
        recordMatchesTerm infos nLines t m := by
    intro m
    by_cases hmN : m < nLines
    · have h2 : 2 ≤ (fetchInfos infos m).length := hwf m hmN
      match hf : fetchInfos infos m, h2 with
      | f0 :: f1 :: r, _ =>
        rw [termMatch_two_fields, Option.getD_some]
        unfold recordMatchesTerm
        rw [hf]
        rfl
    · have h0 : decide (m < nLines) = false := by simp [hmN]
      unfold recordMatchesTerm
      rw [h0]
      rfl
  calc p.2.flatMap (fun m =>
        (((List.range nLines).filter
            (fun i => (termMatch (fetchInfos infos i) t).getD false)).filter
          (fun x => x == m)).map (fun _ => p.1))
      = p.2.flatMap (fun m =>
          if (decide (m < nLines) && (termMatch (fetchInfos infos m) t).getD false)
          then [p.1] else []) := by
        refine congrArg (List.flatMap p.2) (funext fun m => ?_)
        rw [List.filter_filter, filter_range_beq,
          apply_ite (List.map (fun _ => p.1))]
        rfl
    _ = (p.2.filter (fun m =>
          decide (m < nLines) && (termMatch (fetchInfos infos m) t).getD false)).map
          (fun _ => p.1) := flatMap_if_singleton _ _ _
    _ = (p.2.filter (recordMatchesTerm infos nLines t)).map (fun _ => p.1) := by
        rw [funext hq]

/-- Claim C3 (witness): four records with ids `A,B,C,D`, bins
`[[0,1],[2],[3]]`, term `C`: the per-term list is `[2]`. -/
theorem search_per_term_bin_hits_w :
    (search (fun i => (String.toList ((["A sa", "B sb", "C sc", "D sd"]).getD i (""))))
        4 [[0, 1], [2], [3]] [("C").toList]).1 =
      some ([("C").toList].map (specTermBins
        (fun i => (String.toList ((["A sa", "B sb", "C sc", "D sd"]).getD i (""))))
        4 [[0, 1], [2], [3]])) :=
  search_per_term_bin_hits
    (fun i => (String.toList ((["A sa", "B sb", "C sc", "D sd"]).getD i ("")))) 4
    [[0, 1], [2], [3]] [("C").toList] (by decide) (by decide)

theorem searchScan_no_terms (infos : Nat → List Char) (n : Nat) :
    searchScan infos [] n = (some [], n) := by
  induction n with
  | zero => rfl
  | succ n ih =>
    show (match searchScan infos [] n with
      | (none, c) => (none, c)
      | (some results, c) =>
        (searchRecordStep (fetchInfos infos n) [] n results, c + 1)) = _
    rw [ih]
    rfl

theorem binScan_no_terms (bins : List (List Nat)) : binScan [] bins = [] := by
  have h := binScan_map [] (fun _ => []) bins
  simpa using h

/-- Claim C5 (counterexample): a request whose term list filters to
empty still performs one `ReadAt` per record of the fingerprint — here
two reads over two records — contradicting "performs no per-record
fetches". -/
theorem search_no_terms_still_reads :
    filterSearchTerms [[], []] = [] ∧
    (search (fun _ => ("a b").toList) 2 [[0], [1]] (filterSearchTerms [[], []])).2 = 2 := by
  decide

/-- Claim C5 (amended): when the filtered term list is empty the search
returns the empty result set for zero terms, but it still scans the
fingerprint's records file, performing one per-record read for each of
the `N` record ordinals. -/
theorem search_no_terms_scans_all (infos : Nat → List Char) (nLines : Nat)
    (bins : List (List Nat)) (terms : List (List Char))
    (hempty : filterSearchTerms terms = []) :
    search infos nLines bins (filterSearchTerms terms) = (some [], nLines) := by
  rw [hempty]
  unfold search
  rw [searchScan_no_terms]
  show (some (binScan [] bins), nLines) = _
  rw [binScan_no_terms]

/-- Claim C5 (witness). -/
theorem search_no_terms_scans_all_w :
    search (fun _ => ("a b").toList) 3 [[0], [1, 2]] (filterSearchTerms [[], []]) =
      (some [], 3) :=
  search_no_terms_scans_all (fun _ => ("a b").toList) 3 [[0], [1, 2]] [[], []] (by decide)

theorem joinId_assoc (a b c : List Char) :
    joinId (joinId a b) c = joinId a (b ++ '.' :: c) := by
  unfold joinId
  rw [List.append_assoc]
  rfl

theorem joinId_inj_right (a : List Char) :
    ∀ b c : List Char, joinId a b = joinId a c → b = c := by
  intro b c h
  unfold joinId at h
  have h2 := List.append_cancel_left h
  injection h2

theorem ne_joinId_self (a t : List Char) : a ≠ joinId a t := by
  intro h
  have hlen := congrArg List.length h
  unfold joinId at hlen
  rw [List.length_append, List.length_cons] at hlen
  omega

theorem join_inj_left : ∀ a c b d : List Char, dotFree a → dotFree c →
    a ++ '.' :: b = c ++ '.' :: d → a = c ∧ b = d := by
  intro a
  induction a with
  | nil =>
    intro c b d _ hc h
    cases c with
    | nil =>
      rw [List.nil_append, List.nil_append] at h
      injection h with _ h2
      exact ⟨rfl, h2⟩
    | cons y c' =>
      rw [List.nil_append, List.cons_append] at h
      injection h with h1 _
      exact absurd (h1 ▸ List.mem_cons_self y c') hc
  | cons x a' ih =>
    intro c b d ha hc h
    cases c with
    | nil =>
      rw [List.cons_append, List.nil_append] at h
      injection h with h1 _
      exact absurd (h1.symm ▸ List.mem_cons_self x a') ha
    | cons y c' =>
      rw [List.cons_append, List.cons_append] at h
      injection h with h1 h2
      have ha' : dotFree a' := fun hm => ha (List.mem_cons_of_mem x hm)
      have hc' : dotFree c' := fun hm => hc (List.mem_cons_of_mem y hm)
      obtain ⟨h3, h4⟩ := ih c' b d ha' hc' h2
      exact ⟨by rw [h1, h3], h4⟩

theorem variantIdList_assign (F : List Char) (v : Variant) :
    variantIdList (assignVariantId F v) =
      joinId F v.id :: v.colorMaps.map (fun cm => joinId (joinId F v.id) cm.id) := by
  unfold variantIdList assignVariantId assignColorMapId
  rw [List.map_map]
  rfl

theorem fingerprintIdList_assign (D : List Char) (fp : Fingerprint) :
    fingerprintIdList (assignFingerprintId D fp) =
      joinId D fp.id :: fp.variants.flatMap
        (fun v => variantIdList (assignVariantId (joinId D fp.id) v)) := by
  unfold fingerprintIdList assignFingerprintId
  rw [List.flatMap_map]

theorem databaseIdList_assign (db : Database) :
    databaseIdList (assignDatabaseIds db) =
      db.id :: db.fingerprints.flatMap
        (fun fp => fingerprintIdList (assignFingerprintId db.id fp)) := by
  unfold databaseIdList assignDatabaseIds
  rw [List.flatMap_map]

theorem mem_variantIdList_assign (F : List Char) (v : Variant) (x : List Char)
    (hx : x ∈ variantIdList (assignVariantId F v)) :
    x = joinId F v.id ∨ ∃ t, x = joinId F (v.id ++ '.' :: t) := by
  rw [variantIdList_assign] at hx
  rcases List.mem_cons.mp hx with h | h
  · exact Or.inl h
  · obtain ⟨cm, _, hcm⟩ := List.mem_map.mp h
    exact Or.inr ⟨cm.id, by rw [← hcm, joinId_assoc]⟩

theorem mem_fingerprintIdList_assign (D : List Char) (fp : Fingerprint) (x : List Char)
    (hx : x ∈ fingerprintIdList (assignFingerprintId D fp)) :
    x = joinId D fp.id ∨ ∃ t, x = joinId D (fp.id ++ '.' :: t) := by
  rw [fingerprintIdList_assign] at hx
  rcases List.mem_cons.mp hx with h | h
  · exact Or.inl h
  · obtain ⟨v, _, hxv⟩ := List.mem_flatMap.mp h
    rcases mem_variantIdList_assign _ _ _ hxv with h1 | ⟨t, h1⟩
    · exact Or.inr ⟨v.id, by rw [h1, joinId_assoc]⟩
    · exact Or.inr ⟨v.id ++ '.' :: t, by rw [h1, joinId_assoc]⟩

theorem mem_databaseIdList_assign (db : Database) (x : List Char)
    (hx : x ∈ databaseIdList (assignDatabaseIds db)) :
    x = db.id ∨ ∃ t, x = joinId db.id t := by
  rw [databaseIdList_assign] at hx
  rcases List.mem_cons.mp hx with h | h
  · exact Or.inl h
  · obtain ⟨fp, _, hxf⟩ := List.mem_flatMap.mp h
    rcases mem_fingerprintIdList_assign _ _ _ hxf with h1 | ⟨t, h1⟩
    · exact Or.inr ⟨fp.id, h1⟩
    · exact Or.inr ⟨fp.id ++ '.' :: t, h1⟩

theorem nodup_variantIdList_assign (F : List Char) (v : Variant)
    (hcm : (v.colorMaps.map ColorMap.id).Nodup) :
    (variantIdList (assignVariantId F v)).Nodup := by
  rw [variantIdList_assign]
  refine List.nodup_cons.mpr ⟨?_, ?_⟩
  · intro hmem
    obtain ⟨cm, _, heq⟩ := List.mem_map.mp hmem
    rw [joinId_assoc] at heq
    have h2 := joinId_inj_right F _ _ heq
    exact ne_joinId_self v.id cm.id h2.symm
  · have hr : v.colorMaps.map (fun cm => joinId (joinId F v.id) cm.id) =
        (v.colorMaps.map ColorMap.id).map (joinId (joinId F v.id)) := by
      rw [List.map_map]
      rfl
    rw [hr]
    exact hcm.map (fun b c h => joinId_inj_right _ b c h)

theorem nodup_fingerprintIdList_assign (D : List Char) (fp : Fingerprint)
    (hvids : (fp.variants.map Variant.id).Nodup)
    (hv : ∀ v ∈ fp.variants, dotFree v.id ∧ (v.colorMaps.map ColorMap.id).Nodup) :
    (fingerprintIdList (assignFingerprintId D fp)).Nodup := by
  rw [fingerprintIdList_assign]
  refine List.nodup_cons.mpr ⟨?_, ?_⟩
  · intro hmem
    obtain ⟨v, _, hxv⟩ := List.mem_flatMap.mp hmem
    rcases mem_variantIdList_assign _ _ _ hxv with h1 | ⟨t, h1⟩
    · exact ne_joinId_self (joinId D fp.id) v.id h1
    · exact ne_joinId_self (joinId D fp.id) (v.id ++ '.' :: t) h1
  · refine List.nodup_flatMap.mpr ⟨?_, ?_⟩
    · intro v hv'
      exact nodup_variantIdList_assign _ v (hv v hv').2
    · have hpw : List.Pairwise (fun v1 v2 : Variant => v1.id ≠ v2.id) fp.variants :=
        List.pairwise_map.mp hvids
      refine hpw.imp_of_mem ?_
      intro v1 v2 h1 h2 hne x hx1 hx2
      rcases mem_variantIdList_assign _ _ _ hx1 with e1 | ⟨t1, e1⟩ <;>
        rcases mem_variantIdList_assign _ _ _ hx2 with e2 | ⟨t2, e2⟩
      · exact hne (joinId_inj_right _ _ _ (e1.symm.trans e2))
      · have h3 := joinId_inj_right _ _ _ (e1.symm.trans e2)
        exact (hv v1 h1).1 (h3 ▸ List.mem_append_right v2.id (List.mem_cons_self '.' t2))
      · have h3 := joinId_inj_right _ _ _ (e2.symm.trans e1)
        exact (hv v2 h2).1 (h3 ▸ List.mem_append_right v1.id (List.mem_cons_self '.' t1))
      · have h3 := joinId_inj_right _ _ _ (e1.symm.trans e2)
        exact hne (join_inj_left v1.id v2.id t1 t2 (hv v1 h1).1 (hv v2 h2).1 h3).1

theorem nodup_databaseIdList_assign (db : Database)
    (hfids : (db.fingerprints.map Fingerprint.id).Nodup)
    (hfp : ∀ fp ∈ db.fingerprints, dotFree fp.id ∧
      (fp.variants.map Variant.id).Nodup ∧
      ∀ v ∈ fp.variants, dotFree v.id ∧ (v.colorMaps.map ColorMap.id).Nodup) :
    (databaseIdList (assignDatabaseIds db)).Nodup := by
  rw [databaseIdList_assign]
  refine List.nodup_cons.mpr ⟨?_, ?_⟩
  · intro hmem
    obtain ⟨fp, _, hxf⟩ := List.mem_flatMap.mp hmem
    rcases mem_fingerprintIdList_assign _ _ _ hxf with h1 | ⟨t, h1⟩
    · exact ne_joinId_self db.id fp.id h1
    · exact ne_joinId_self db.id (fp.id ++ '.' :: t) h1
  · refine List.nodup_flatMap.mpr ⟨?_, ?_⟩
    · intro fp hfp'
      exact nodup_fingerprintIdList_assign db.id fp (hfp fp hfp').2.1 (hfp fp hfp').2.2
    · have hpw : List.Pairwise (fun f1 f2 : Fingerprint => f1.id ≠ f2.id) db.fingerprints :=
        List.pairwise_map.mp hfids
      refine hpw.imp_of_mem ?_
      intro f1 f2 h1 h2 hne x hx1 hx2
      rcases mem_fingerprintIdList_assign _ _ _ hx1 with e1 | ⟨t1, e1⟩ <;>
        rcases mem_fingerprintIdList_assign _ _ _ hx2 with e2 | ⟨t2, e2⟩
      · exact hne (joinId_inj_right _ _ _ (e1.symm.trans e2))
      · have h3 := joinId_inj_right _ _ _ (e1.symm.trans e2)
        exact (hfp f1 h1).1 (h3 ▸ List.mem_append_right f2.id (List.mem_cons_self '.' t2))
      · have h3 := joinId_inj_right _ _ _ (e2.symm.trans e1)
        exact (hfp f2 h2).1 (h3 ▸ List.mem_append_right f1.id (List.mem_cons_self '.' t1))
      · have h3 := joinId_inj_right _ _ _ (e1.symm.trans e2)
        exact hne (join_inj_left f1.id f2.id t1 t2 (hfp f1 h1).1 (hfp f2 h2).1 h3).1

/-- Claim C9 (counterexample): a catalog the loader accepts whose two
databases share the configured id `a` (checkConfig validates only file
existence, never id distinctness) yields duplicate served ids. -/
theorem assignIds_not_unique_example :
    ¬ (allIds (assignIds demoDupConfig)).Nodup ∧
    allIds (assignIds demoDupConfig) = [['a'], ['a']] := by
  decide

/-- Claim C9 (amended): every id of the served catalog is its ancestors'
configured ids and its own joined with `.`; provided all configured ids
are dot-free and sibling ids at each level are pairwise distinct —
a discipline the loader itself never validates — the served ids are
globally unique across databases, fingerprints, variants and color
maps. -/
theorem assignIds_unique (cfg : Configuration) (hwf : configIdsWellFormed cfg) :
    (allIds (assignIds cfg)).Nodup := by
  obtain ⟨hdb, hrest⟩ := hwf
  unfold allIds assignIds
  rw [List.flatMap_map]
  refine List.nodup_flatMap.mpr ⟨?_, ?_⟩
  · intro db hdb'
    refine nodup_databaseIdList_assign db (hrest db hdb').2.1 ?_
    intro fp hfp'
    obtain ⟨hdf, hvn, hvv⟩ := (hrest db hdb').2.2 fp hfp'
    exact ⟨hdf, hvn, fun v hv' => ⟨(hvv v hv').1, (hvv v hv').2.1⟩⟩
  · have hpw : List.Pairwise (fun d1 d2 : Database => d1.id ≠ d2.id) cfg.databases :=
      List.pairwise_map.mp hdb
    refine hpw.imp_of_mem ?_
    intro d1 d2 h1 h2 hne x hx1 hx2
    rcases mem_databaseIdList_assign _ _ hx1 with e1 | ⟨t1, e1⟩ <;>
      rcases mem_databaseIdList_assign _ _ hx2 with e2 | ⟨t2, e2⟩
    · exact hne (e1.symm.trans e2)
    · have h3 : d1.id = d2.id ++ '.' :: t2 := e1.symm.trans e2
      exact (hrest d1 h1).1 (h3 ▸ List.mem_append_right d2.id (List.mem_cons_self '.' t2))
    · have h3 : d2.id = d1.id ++ '.' :: t1 := e2.symm.trans e1
      exact (hrest d2 h2).1 (h3 ▸ List.mem_append_right d1.id (List.mem_cons_self '.' t1))
    · have h3 : d1.id ++ '.' :: t1 = d2.id ++ '.' :: t2 := e1.symm.trans e2
      exact hne (join_inj_left d1.id d2.id t1 t2 (hrest d1 h1).1 (hrest d2 h2).1 h3).1

/-- Claim C9 (witness). -/
theorem assignIds_unique_w :
    (allIds (assignIds demoConfig)).Nodup :=
  assignIds_unique demoConfig (by decide)

end Underdark
